import Mathlib

/-!
Verification model of the react-app-guide repository (src/StepTour.tsx and
src/HighlightTour.tsx).

The StepTour component is a React function component.  Its observable
behaviour is determined by:

* its state hooks: `index`, `showIntro`, `showOutro` (lines 72-74), the refs
  `introShownRef` and `stepsRef` (lines 75-76);
* four `useEffect` hooks, run in declaration order after every committed
  render whose dependency array changed:
  - effect E1 (lines 78-80, deps `[steps]`): copies the `steps` prop into
    `stepsRef`;
  - effect E2 (lines 83-88, deps `[open, index, steps.length]`): resets the
    index to 0 when it falls outside the (ref) steps list;
  - effect E3 (lines 90-108, deps `[open, intro]`): on close resets all
    state and the latch; on open, guarded by the `introShownRef` latch,
    shows the intro and fires `intro.onEnter`, or fires `steps[0].onEnter`
    when there is no intro;
  - effect E4 (lines 110-113, deps `[index, open, showIntro]`): fires
    `steps[index].onEnter` whenever its dependencies changed and the tour is
    open with no intro showing;
* the `useMemo` value `current` (lines 125-128, deps `[open, showIntro,
  index]`), which reads `stepsRef` at render time;
* the handlers `handleClose`, `handleNext`, `handlePrev`, `handleOutroPrev`,
  `handleIntroNext` (lines 130-175) and the outro "Finish" button handler
  (lines 237-240 / 256-259).

We embed this as an explicit state machine.  A configuration stores the
props, the three state hooks, the two refs, the memoised `current` value
together with its dependency snapshot, and the dependency snapshots of
effects E2-E4 (E1 needs no snapshot: re-running it is observationally the
assignment `stepsRef := steps`, which we perform every round).  Callbacks
are modelled by presence flags on the descriptors; an invocation of a
present callback is recorded as an event in a trace.

React reference-identity of the `intro` prop (compared by `Object.is` in the
E3 dependency array) is modelled by a version counter `introId`: a caller
that re-creates the descriptor object bumps the counter.  The `steps` array
appears only in E1 (handled as above) and via its length in E2, so it needs
no counter.
-/

/-- Presence flags for the optional callbacks of a step descriptor
(`TourStep` in StepTour.tsx, lines 8-18). -/
structure TourStep where
  hasOnEnter : Bool
  hasOnNext : Bool
deriving DecidableEq

/-- Presence flags for the optional callbacks of the intro descriptor
(`TourIntro`, lines 20-28). -/
structure TourIntro where
  hasOnEnter : Bool
  hasOnNext : Bool
  hasOnClose : Bool
deriving DecidableEq

/-- Presence flags for the optional callbacks of the outro descriptor
(`TourOutro`, lines 30-38). -/
structure TourOutro where
  hasOnEnter : Bool
  hasOnNext : Bool
  hasOnClose : Bool
deriving DecidableEq

/-- The props of StepTour that matter to the navigation engine (lines
53-69).  `opn` models the `open` prop (`open` is a reserved word in Lean).
`introId` is the reference identity of the `intro` object, see the header
comment. -/
structure Props where
  opn : Bool
  steps : List TourStep
  intro : Option TourIntro
  introId : Nat
  outro : Option TourOutro
  hasOnClose : Bool
deriving DecidableEq

/-- Callback invocation events.  `introClose` and `outroClose` stand for the
`onClose` fields of the intro/outro descriptors; no code path in
StepTour.tsx ever invokes them, so no definition below emits them.
`closeCb` is the component-level `onClose` prop invoked by `handleClose`
(line 135). -/
inductive Ev where
  | introEnter
  | introNext
  | introClose
  | outroEnter
  | outroNext
  | outroClose
  | stepEnter (i : Nat)
  | stepNext (i : Nat)
  | closeCb
deriving DecidableEq

/-- A committed configuration of the StepTour component: props, state hooks,
refs, the memoised `current` value with its dependency snapshot, and the
dependency snapshots of effects E2, E3, E4 (a `none` snapshot means the
effect has never run, i.e. the component is about to mount). -/
structure Cfg where
  props : Props
  index : Nat
  showIntro : Bool
  showOutro : Bool
  introShown : Bool
  stepsRef : List TourStep
  memoCache : Option TourStep
  memoDeps : Option (Bool × Bool × Nat)
  d2 : Option (Bool × Nat × Nat)
  d3 : Option (Bool × Nat)
  d4 : Option (Nat × Bool × Bool)
deriving DecidableEq

/-- Events produced by `steps[i]?.onEnter?.()` (lines 106, 112, 171): an
event is recorded when the index is in range and the callback is present. -/
def stepEnterEv (l : List TourStep) (i : Nat) : List Ev :=
  match l.get? i with
  | some s => if s.hasOnEnter then [Ev.stepEnter i] else []
  | none => []

/-- The state-hook updates and events produced by effect E3 (lines 90-108)
in one render round. -/
structure E3Out where
  index : Nat
  showIntro : Bool
  showOutro : Bool
  introShown : Bool
  evs : List Ev
deriving DecidableEq

/-- One render-and-effects round of StepTour.  The render phase recomputes
the `current` memo when its dependencies changed (reading `stepsRef` as it
stands before this round's effects, exactly as the JSX render does); then
effects E1-E4 run in order, each only when its dependency snapshot changed.
Effects read the state values of the committed render (their closures) and
read/write the refs live. -/
def renderRound (c : Cfg) : Cfg × List Ev :=
  let p := c.props
  -- render phase: `current` memo, lines 125-128
  let mDeps : Bool × Bool × Nat := (p.opn, c.showIntro, c.index)
  let mCache : Option TourStep :=
    if c.memoDeps = some mDeps then c.memoCache
    else if p.opn = true ∧ c.showIntro = false then c.stepsRef.get? c.index
    else none
  -- effect E1, lines 78-80: stepsRef.current := steps
  let sr := p.steps
  -- effect E2, lines 83-88
  let deps2 : Bool × Nat × Nat := (p.opn, c.index, p.steps.length)
  let idx2 : Nat :=
    if c.d2 ≠ some deps2 ∧ p.opn = true ∧ sr.length ≤ c.index then 0 else c.index
  -- effect E3, lines 90-108
  let deps3 : Bool × Nat := (p.opn, p.introId)
  let e3 : E3Out :=
    if c.d3 = some deps3 then
      ⟨idx2, c.showIntro, c.showOutro, c.introShown, []⟩
    else if p.opn = false then
      -- lines 91-97: close: reset everything including the latch
      ⟨0, false, false, false, []⟩
    else if c.introShown = true then
      -- line 98: the latch suppresses re-firing
      ⟨idx2, c.showIntro, c.showOutro, c.introShown, []⟩
    else
      match p.intro with
      | some it =>
        -- lines 102-104
        ⟨idx2, true, c.showOutro, true, if it.hasOnEnter then [Ev.introEnter] else []⟩
      | none =>
        -- line 106
        ⟨idx2, c.showIntro, c.showOutro, true, stepEnterEv sr 0⟩
  -- effect E4, lines 110-113
  let deps4 : Nat × Bool × Bool := (c.index, p.opn, c.showIntro)
  let evs4 : List Ev :=
    if c.d4 ≠ some deps4 ∧ p.opn = true ∧ c.showIntro = false then
      stepEnterEv sr c.index
    else []
  ({ props := p, index := e3.index, showIntro := e3.showIntro,
     showOutro := e3.showOutro, introShown := e3.introShown, stepsRef := sr,
     memoCache := mCache, memoDeps := some mDeps, d2 := some deps2,
     d3 := some deps3, d4 := some deps4 },
   e3.evs ++ evs4)

/-- A full React commit cascade: render/effect rounds repeat while effects
keep changing state.  In this component the effects can only reset hooks
(E3 runs at most once per prop change because its snapshot is stored in the
first round, and E2 only ever writes index 0), so the second round never
changes the state hooks and a third round would run no effect at all; two
rounds therefore realise the whole cascade.  `commit_fix` below proves
this. -/
def commit (c : Cfg) : Cfg × List Ev :=
  let r1 := renderRound c
  let r2 := renderRound r1.1
  (r2.1, r1.2 ++ r2.2)

/-- The `handleClose` handler (lines 130-136).  It clears the phase flags,
resets the index and the latch, and invokes the component-level `onClose`
prop; the intro/outro descriptor `onClose` callbacks are not invoked
anywhere in the source.  The trailing `Bool` reports that close semantics
ran (used to model a conforming caller lowering `open`). -/
def handleCloseCore (c : Cfg) : Cfg × List Ev × Bool :=
  ({ c with showIntro := false, showOutro := false, index := 0, introShown := false },
   if c.props.hasOnClose then [Ev.closeCb] else [], true)

/-- The `handleNext` handler (lines 138-151): fires `current.onNext` (the
memoised step), then advances the index, or enters the outro firing its
`onEnter`, or closes. -/
def handleNextCore (c : Cfg) : Cfg × List Ev × Bool :=
  let evNext : List Ev :=
    match c.memoCache with
    | some s => if s.hasOnNext then [Ev.stepNext c.index] else []
    | none => []
  if c.index + 1 < c.stepsRef.length then
    ({ c with index := c.index + 1 }, evNext, false)
  else
    match c.props.outro with
    | some ot =>
      ({ c with showOutro := true },
       evNext ++ (if ot.hasOnEnter then [Ev.outroEnter] else []), false)
    | none =>
      let r := handleCloseCore c
      (r.1, evNext ++ r.2.1, true)

/-- The `handlePrev` handler (lines 153-156): a guard makes index 0 a no-op,
otherwise the index decreases by one; the handler itself fires nothing. -/
def handlePrevCore (c : Cfg) : Cfg × List Ev × Bool :=
  if c.index = 0 then (c, [], false)
  else ({ c with index := c.index - 1 }, [], false)

/-- The `handleOutroPrev` handler (lines 158-165): hides the outro; when the
(ref) steps list is non-empty it also decreases the index by one
(`Math.max(0, prev - 1)` is truncated subtraction on naturals). -/
def handleOutroPrevCore (c : Cfg) : Cfg × List Ev × Bool :=
  if c.stepsRef.length = 0 then ({ c with showOutro := false }, [], false)
  else ({ c with showOutro := false, index := c.index - 1 }, [], false)

/-- The `handleIntroNext` handler (lines 167-175): fires `intro.onNext`,
hides the intro, then fires `steps[0].onEnter` when steps exist, else runs
`handleClose`. -/
def handleIntroNextCore (c : Cfg) : Cfg × List Ev × Bool :=
  let evNext : List Ev :=
    match c.props.intro with
    | some it => if it.hasOnNext then [Ev.introNext] else []
    | none => []
  if 0 < c.stepsRef.length then
    ({ c with showIntro := false }, evNext ++ stepEnterEv c.stepsRef 0, false)
  else
    let r := handleCloseCore { c with showIntro := false }
    (r.1, evNext ++ r.2.1, true)

/-- The outro "Finish" button handler (lines 237-240 and 256-259): fires
`outro.onNext` and then runs `handleClose`. -/
def handleOutroNextCore (c : Cfg) : Cfg × List Ev × Bool :=
  let evNext : List Ev :=
    match c.props.outro with
    | some ot => if ot.hasOnNext then [Ev.outroNext] else []
    | none => []
  let r := handleCloseCore c
  (r.1, evNext ++ r.2.1, true)

/-- Run a handler and then the commit cascade its state updates trigger.
The `open` prop is left untouched: this models a caller that does not react
to the `onClose` signal (the `onClose` prop is optional, line 56). -/
def fire (h : Cfg → Cfg × List Ev × Bool) (c : Cfg) : Cfg × List Ev :=
  let r0 := h c
  let r := commit r0.1
  (r.1, r0.2.1 ++ r.2)

/-- Lower the `open` prop, as a conforming controlled-component caller does
from its `onClose` callback. -/
def lowerOpen (c : Cfg) : Cfg := { c with props := { c.props with opn := false } }

/-- Run a handler under a conforming caller: whenever close semantics ran,
the caller's `onClose` lowers the `open` prop, and React batches that prop
update into the same commit as the handler's own state updates. -/
def fireC (h : Cfg → Cfg × List Ev × Bool) (c : Cfg) : Cfg × List Ev :=
  let r0 := h c
  let c1 := if r0.2.2 = true then lowerOpen r0.1 else r0.1
  let r := commit c1
  (r.1, r0.2.1 ++ r.2)

/-- A parent re-render delivering (possibly) new props, followed by the
commit cascade. -/
def applyProps (c : Cfg) (p : Props) : Cfg × List Ev :=
  commit { c with props := p }

/-- The configuration of a freshly mounting component: hooks at their
initial values (lines 72-75), `stepsRef` initialised to the `steps` prop
(line 76), no memo value and no effect snapshots yet. -/
def initialCfg (p : Props) : Cfg :=
  { props := p, index := 0, showIntro := false, showOutro := false,
    introShown := false, stepsRef := p.steps, memoCache := none,
    memoDeps := none, d2 := none, d3 := none, d4 := none }

/-- Mounting the component: the first commit runs every effect. -/
def mount (p : Props) : Cfg × List Ev :=
  commit (initialCfg p)

/-- The tour phase of the spec, read off a configuration exactly as the
component's render decides what to show: nothing when `open` is false (line
177), the intro modal when `showIntro` and an intro exist (line 190), the
outro modal when `showOutro` and an outro exist (line 223), the step UI
when the memoised `current` step exists (line 271), and nothing
otherwise. -/
inductive Phase where
  | closed
  | intro
  | outro
  | step (i : Nat)
deriving DecidableEq

/-- Phase determined by a configuration; `Phase.closed` means the component
renders nothing. -/
def phase (c : Cfg) : Phase :=
  if c.props.opn = false then Phase.closed
  else if c.showIntro = true ∧ c.props.intro.isSome = true then Phase.intro
  else if c.showOutro = true ∧ c.props.outro.isSome = true then Phase.outro
  else
    match c.memoCache with
    | some _ => Phase.step c.index
    | none => Phase.closed

/-- A settled configuration: the refs, memo value and effect snapshots agree
with the current props and state, as they do after a commit whose memo was
recomputed against the current steps list. -/
def Stable (c : Cfg) : Prop :=
  c.stepsRef = c.props.steps ∧
  c.memoDeps = some (c.props.opn, c.showIntro, c.index) ∧
  c.memoCache = (if c.props.opn = true ∧ c.showIntro = false
                 then c.props.steps.get? c.index else none) ∧
  c.d2 = some (c.props.opn, c.index, c.props.steps.length) ∧
  c.d3 = some (c.props.opn, c.props.introId) ∧
  c.d4 = some (c.index, c.props.opn, c.showIntro)

instance : DecidablePred Stable := fun c => by
  unfold Stable
  infer_instance

/-- States reachable through the component's effects and handlers alone:
the caller may change props arbitrarily (bumping `introId` whenever the
intro object changes identity) but is not assumed to lower `open` when the
component signals close.  Handler transitions carry the guard of the UI
that exposes them: every modal has a close control, `handleNext` and
`handlePrev` are wired only from the step UI (lines 282-283, with the back
control only at a positive index), `handleIntroNext` only from the intro
modal, and the outro back control renders only at a positive index (lines
241, 248). -/
inductive Reach : Cfg → Prop where
  | mounted (p : Props) : Reach (mount p).1
  | reprops (c : Cfg) (p : Props) (hc : Reach c)
      (hid : p.intro = c.props.intro ∨ p.introId ≠ c.props.introId) :
      Reach (applyProps c p).1
  | closeB (c : Cfg) (hc : Reach c) (h : phase c ≠ Phase.closed) :
      Reach (fire handleCloseCore c).1
  | nextB (c : Cfg) (i : Nat) (hc : Reach c) (h : phase c = Phase.step i) :
      Reach (fire handleNextCore c).1
  | prevB (c : Cfg) (i : Nat) (hc : Reach c) (h : phase c = Phase.step i)
      (hpos : 0 < c.index) : Reach (fire handlePrevCore c).1
  | introNextB (c : Cfg) (hc : Reach c) (h : phase c = Phase.intro) :
      Reach (fire handleIntroNextCore c).1
  | outroPrevB (c : Cfg) (hc : Reach c) (h : phase c = Phase.outro)
      (hpos : 0 < c.index) : Reach (fire handleOutroPrevCore c).1
  | outroNextB (c : Cfg) (hc : Reach c) (h : phase c = Phase.outro) :
      Reach (fire handleOutroNextCore c).1

/-- States reachable under a conforming caller: identical to `Reach` except
that every handler salvo runs through `fireC`, so a close signal lowers the
`open` prop within the same commit. -/
inductive ReachC : Cfg → Prop where
  | mounted (p : Props) : ReachC (mount p).1
  | reprops (c : Cfg) (p : Props) (hc : ReachC c)
      (hid : p.intro = c.props.intro ∨ p.introId ≠ c.props.introId) :
      ReachC (applyProps c p).1
  | closeB (c : Cfg) (hc : ReachC c) (h : phase c ≠ Phase.closed) :
      ReachC (fireC handleCloseCore c).1
  | nextB (c : Cfg) (i : Nat) (hc : ReachC c) (h : phase c = Phase.step i) :
      ReachC (fireC handleNextCore c).1
  | prevB (c : Cfg) (i : Nat) (hc : ReachC c) (h : phase c = Phase.step i)
      (hpos : 0 < c.index) : ReachC (fireC handlePrevCore c).1
  | introNextB (c : Cfg) (hc : ReachC c) (h : phase c = Phase.intro) :
      ReachC (fireC handleIntroNextCore c).1
  | outroPrevB (c : Cfg) (hc : ReachC c) (h : phase c = Phase.outro)
      (hpos : 0 < c.index) : ReachC (fireC handleOutroPrevCore c).1
  | outroNextB (c : Cfg) (hc : ReachC c) (h : phase c = Phase.outro) :
      ReachC (fireC handleOutroNextCore c).1

/-!
Keyboard handling.  HighlightTour installs a window keydown listener while
it is mounted and `open` (HighlightTour.tsx lines 130-150): Escape always
prevents default and calls `onClose`; ArrowRight prevents default and calls
`onNext` only when `onNext` is defined; ArrowLeft likewise with `onPrev`.
StepTour mounts HighlightTour only in the step branch of its render (lines
271-309), always passing `onNext := handleNext` and passing
`onPrev := handlePrev` only when the index is positive (line 283); the
intro and outro modals install no key listener at all.
-/

/-- Keys distinguished by the HighlightTour keydown handler. -/
inductive Key where
  | escape
  | arrowRight
  | arrowLeft
  | other
deriving DecidableEq

/-- Navigation intents a keypress can trigger. -/
inductive NavAction where
  | close
  | next
  | prev
deriving DecidableEq

/-- Result of one keydown: the triggered action, if any, and whether the
default browser handling was suppressed. -/
structure KeyResult where
  action : Option NavAction
  prevented : Bool
deriving DecidableEq

/-- The HighlightTour keydown handler (HighlightTour.tsx lines 132-147), as
a function of which of `onNext` / `onPrev` are defined. -/
def highlightKeydown (hasNext hasPrev : Bool) (k : Key) : KeyResult :=
  match k with
  | Key.escape => ⟨some NavAction.close, true⟩
  | Key.arrowRight => if hasNext then ⟨some NavAction.next, true⟩ else ⟨none, false⟩
  | Key.arrowLeft => if hasPrev then ⟨some NavAction.prev, true⟩ else ⟨none, false⟩
  | Key.other => ⟨none, false⟩

/-- What a keydown does to a StepTour in configuration `c`: the handler is
installed only while the step UI (HighlightTour) is mounted; there
`onNext` is always `handleNext` and `onPrev` is `handlePrev` exactly when
the index is positive. -/
def stepTourKeydown (c : Cfg) (k : Key) : KeyResult :=
  match phase c with
  | Phase.step _ => highlightKeydown true (decide (0 < c.index)) k
  | _ => ⟨none, false⟩

/-!
Tooltip placement (HighlightTour.tsx lines 166-167), a pure function of the
target geometry and the viewport size.  Coordinates are rationals standing
for the real-valued CSS pixel coordinates.
-/

/-- Horizontal tooltip position, line 166:
`Math.min(Math.max(rect.left, 16), Math.max(16, viewportWidth - 320))`. -/
def tooltipLeft (left vw : ℚ) : ℚ := min (max left 16) (max 16 (vw - 320))

/-- Vertical tooltip position, line 167:
`Math.min(rect.bottom + 12, viewportHeight - 160)`. -/
def tooltipTop (bottom vh : ℚ) : ℚ := min (bottom + 12) (vh - 160)

/-!
Basic lemmas about a render round and a commit.
-/

theorem rr_props (c : Cfg) : (renderRound c).1.props = c.props := rfl

theorem rr_d3 (c : Cfg) :
    (renderRound c).1.d3 = some (c.props.opn, c.props.introId) := rfl

theorem rr_memoDeps (c : Cfg) :
    (renderRound c).1.memoDeps = some (c.props.opn, c.showIntro, c.index) := rfl

theorem rr_stepsRef (c : Cfg) : (renderRound c).1.stepsRef = c.props.steps := rfl

/-- When effect E3 is dep-suppressed (its snapshot matches the current
`open` prop and intro identity), a round leaves the phase flags and the
latch unchanged. -/
theorem rr_state_of_d3 (c : Cfg)
    (h : c.d3 = some (c.props.opn, c.props.introId)) :
    (renderRound c).1.showIntro = c.showIntro ∧
    (renderRound c).1.showOutro = c.showOutro ∧
    (renderRound c).1.introShown = c.introShown := by
  unfold renderRound
  simp only [h, if_pos rfl]
  exact ⟨rfl, rfl, rfl⟩

/-- A round on a settled configuration does nothing. -/
theorem stable_round (c : Cfg) (h : Stable c) : renderRound c = (c, []) := by
  obtain ⟨h1, h2, h3, h4, h5, h6⟩ := h
  unfold renderRound
  simp only [h2, h4, h5, h6, ne_eq, if_pos rfl, not_true_eq_false, false_and, if_false]
  refine Prod.ext ?_ rfl
  cases c
  simp_all

/-- A commit on a settled configuration does nothing. -/
theorem stable_commit (c : Cfg) (h : Stable c) : commit c = (c, []) := by
  simp [commit, stable_round c h]

/-- Changing `showOutro` alone never disturbs settledness: no dependency
array and no memo reads it. -/
theorem stable_set_outro (c : Cfg) (h : Stable c) (b : Bool) :
    Stable { c with showOutro := b } := by
  obtain ⟨h1, h2, h3, h4, h5, h6⟩ := h
  exact ⟨h1, h2, h3, h4, h5, h6⟩

/-- After a handler moved the index to a fresh in-range value `j` (with the
tour open and no intro showing), the commit cascade re-runs the memo and
effects E2 and E4: the configuration settles at index `j` and the only
events are those of `steps[j].onEnter` fired by effect E4. -/
theorem commit_set_index (c : Cfg) (hS : Stable c) (ho : c.props.opn = true)
    (hsi : c.showIntro = false) (j : Nat) (hne : j ≠ c.index)
    (hj : j < c.props.steps.length) (b : Bool) :
    commit { c with index := j, showOutro := b } =
      ({ c with
          index := j,
          showOutro := b,
          memoCache := c.props.steps.get? j,
          memoDeps := some (c.props.opn, c.showIntro, j),
          d2 := some (c.props.opn, j, c.props.steps.length),
          d4 := some (j, c.props.opn, c.showIntro) },
       stepEnterEv c.props.steps j) := by
  obtain ⟨h1, h2, h3, h4, h5, h6⟩ := hS
  have hne2 : c.index ≠ j := Ne.symm hne
  have hj2 : ¬ (c.props.steps.length ≤ j) := not_le.mpr hj
  have hr1 : renderRound { c with index := j, showOutro := b } =
      ({ c with
          index := j,
          showOutro := b,
          memoCache := c.props.steps.get? j,
          memoDeps := some (c.props.opn, c.showIntro, j),
          d2 := some (c.props.opn, j, c.props.steps.length),
          d4 := some (j, c.props.opn, c.showIntro) },
       stepEnterEv c.props.steps j) := by
    unfold renderRound
    simp only [h2, h4, h5, h6, ho, hsi, hne2, hj2]
    simp [hne2, hj2, h1]
  have hst : Stable ({ c with
      index := j,
      showOutro := b,
      memoCache := c.props.steps.get? j,
      memoDeps := some (c.props.opn, c.showIntro, j),
      d2 := some (c.props.opn, j, c.props.steps.length),
      d4 := some (j, c.props.opn, c.showIntro) } : Cfg) := by
    refine ⟨h1, rfl, ?_, rfl, h5, rfl⟩
    simp [ho, hsi]
  unfold commit
  rw [hr1]
  simp only [stable_round _ hst]
  simp

/-- The settled configuration of a closed tour with props `p` (all hooks at
their reset values, snapshots recorded with `open` lowered). -/
def closedCfg (p : Props) : Cfg :=
  { props := { p with opn := false }, index := 0, showIntro := false,
    showOutro := false, introShown := false, stepsRef := p.steps,
    memoCache := none, memoDeps := some (false, false, 0),
    d2 := some (false, 0, p.steps.length), d3 := some (false, p.introId),
    d4 := some (0, false, false) }

theorem closedCfg_stable (p : Props) : Stable (closedCfg p) := by
  refine ⟨rfl, rfl, ?_, rfl, rfl, rfl⟩
  simp [closedCfg]

/-- Mounting with `open` low settles at the closed configuration. -/
theorem mount_closed (p : Props) :
    mount { p with opn := false } = (closedCfg p, []) := by
  unfold mount commit initialCfg
  have hr1 : renderRound
      { props := { p with opn := false }, index := 0, showIntro := false,
        showOutro := false, introShown := false,
        stepsRef := ({ p with opn := false } : Props).steps,
        memoCache := none, memoDeps := none, d2 := none, d3 := none,
        d4 := none } = (closedCfg p, []) := by
    unfold renderRound closedCfg
    simp
  rw [hr1]
  simp only [stable_round _ (closedCfg_stable p)]
  simp

/-- The commit that follows `handleClose` under a conforming caller (state
hooks reset by the handler, `open` lowered by the caller's `onClose` in the
same batch): it settles silently at the closed configuration. -/
theorem commit_lower_reset (c : Cfg) (hS : Stable c) (ho : c.props.opn = true) :
    commit (lowerOpen { c with
        showIntro := false, showOutro := false, index := 0, introShown := false }) =
      (closedCfg c.props, []) := by
  obtain ⟨h1, h2, h3, h4, h5, h6⟩ := hS
  have hr1 : renderRound
      (lowerOpen { c with
        showIntro := false, showOutro := false, index := 0, introShown := false }) =
      (closedCfg c.props, []) := by
    unfold renderRound lowerOpen closedCfg
    simp [h2, h4, h5, h6, ho, h1]
  unfold commit
  rw [hr1]
  simp only [stable_round _ (closedCfg_stable c.props)]
  simp

/-- Under a conforming caller, `handleClose` from any settled open
configuration lands exactly on the closed configuration, emitting only the
component-level `onClose` event. -/
theorem close_fireC (c : Cfg) (hS : Stable c) (ho : c.props.opn = true) :
    fireC handleCloseCore c =
      (closedCfg c.props,
       if c.props.hasOnClose = true then [Ev.closeCb] else []) := by
  unfold fireC handleCloseCore
  simp only [eq_self_iff_true, if_true]
  rw [commit_lower_reset c hS ho]
  simp

/-- The settled configuration of an open tour sitting at step `i` with no
intro showing (the latch set). -/
def stepCfg (p : Props) (i : Nat) : Cfg :=
  { props := { p with opn := true }, index := i, showIntro := false,
    showOutro := false, introShown := true, stepsRef := p.steps,
    memoCache := p.steps.get? i, memoDeps := some (true, false, i),
    d2 := some (true, i, p.steps.length), d3 := some (true, p.introId),
    d4 := some (i, true, false) }

theorem stepCfg_stable (p : Props) (i : Nat) : Stable (stepCfg p i) := by
  refine ⟨rfl, rfl, ?_, rfl, rfl, rfl⟩
  simp [stepCfg]

/-- The settled configuration of an open tour showing the intro. -/
def introCfg (p : Props) : Cfg :=
  { props := { p with opn := true }, index := 0, showIntro := true,
    showOutro := false, introShown := true, stepsRef := p.steps,
    memoCache := none, memoDeps := some (true, true, 0),
    d2 := some (true, 0, p.steps.length), d3 := some (true, p.introId),
    d4 := some (0, true, true) }

/-- Raising `open` on a closed tour with no intro descriptor: both the
latch-guarded effect E3 (line 106) and the dep-triggered effect E4 (line
112) fire `steps[0].onEnter`, so the event appears twice; the tour settles
at step 0. -/
theorem open_commit_nointro (p : Props) (h : p.intro = none) :
    applyProps (closedCfg p) { p with opn := true } =
      (stepCfg p 0, stepEnterEv p.steps 0 ++ stepEnterEv p.steps 0) := by
  have hr1 : renderRound { closedCfg p with props := { p with opn := true } } =
      (stepCfg p 0, stepEnterEv p.steps 0 ++ stepEnterEv p.steps 0) := by
    unfold renderRound closedCfg stepCfg
    simp [h]
  unfold applyProps commit
  rw [hr1]
  simp only [stable_round _ (stepCfg_stable p 0)]
  simp

/-- Raising `open` on a closed tour with an intro descriptor: effect E3
shows the intro and fires `intro.onEnter`; effect E4 nevertheless also
fires `steps[0].onEnter` (its render closure still sees `showIntro`
false); a second round then clears the memoised step. -/
theorem open_commit_intro (p : Props) (it : TourIntro) (h : p.intro = some it) :
    applyProps (closedCfg p) { p with opn := true } =
      (introCfg p,
       (if it.hasOnEnter then [Ev.introEnter] else []) ++ stepEnterEv p.steps 0) := by
  have hr1 : renderRound { closedCfg p with props := { p with opn := true } } =
      ({ introCfg p with
          memoCache := p.steps.get? 0,
          memoDeps := some (true, false, 0),
          d4 := some (0, true, false) },
       (if it.hasOnEnter then [Ev.introEnter] else []) ++ stepEnterEv p.steps 0) := by
    unfold renderRound closedCfg introCfg
    simp [h]
  have hr2 : renderRound ({ introCfg p with
      memoCache := p.steps.get? 0,
      memoDeps := some (true, false, 0),
      d4 := some (0, true, false) } : Cfg) = (introCfg p, []) := by
    unfold renderRound introCfg
    simp
  unfold applyProps commit
  rw [hr1]
  simp only [hr2]
  simp

/-!
Sample descriptors and configurations used by concrete witnesses and
counterexamples.
-/

/-- A step whose `onEnter` and `onNext` callbacks are both supplied. -/
def stepA : TourStep := ⟨true, true⟩

/-- An intro descriptor with all three callbacks supplied. -/
def introD : TourIntro := ⟨true, true, true⟩

/-- An outro descriptor with all three callbacks supplied. -/
def outroD : TourOutro := ⟨true, true, true⟩

/-- Open tour, one step, no intro, no outro, `onClose` prop supplied. -/
def propsA : Props := ⟨true, [stepA], none, 0, none, true⟩

/-- Open tour, two steps, no intro, no outro. -/
def propsAB : Props := ⟨true, [stepA, stepA], none, 0, none, true⟩

/-- Open tour, two steps and an outro. -/
def propsABO : Props := ⟨true, [stepA, stepA], none, 0, some outroD, true⟩

/-- Open tour, one step and an intro. -/
def propsI : Props := ⟨true, [stepA], some introD, 0, none, true⟩

/-- Open tour, one step, intro and outro, and no `onClose` prop (the caller
cannot observe closes, so `open` stays raised). -/
def propsBoth : Props := ⟨true, [stepA], some introD, 0, some outroD, false⟩

/-- Open tour with five steps. -/
def props5 : Props := ⟨true, [stepA, stepA, stepA, stepA, stepA], none, 0, none, true⟩

/-- The configuration reached by mounting closed and raising `open`. -/
def openedCfg (p : Props) : Cfg :=
  (applyProps (mount { p with opn := false }).1 { p with opn := true }).1

/-!
Claim C1.  The spec asserts that the initial `onEnter` (the intro's if one
is supplied, else `Step(0)`'s) fires exactly once per open lifecycle,
guarded by the `introShownRef` latch.  The latch (line 75) and the
dedicated call `stepsRef.current[0]?.onEnter?.()` (line 106) exist for
precisely this purpose, but the separate effect at lines 110-113 also runs
on the same `open` transition (its deps `[index, open, showIntro]` changed
through `open`) and fires `steps[0].onEnter` a second time.  With no intro
the initial `onEnter` is therefore invoked twice on a single opening:
the code defeats its own exactly-once latch.
-/

/-- Claim C1 (code bug): opening a closed tour whose steps are `[stepA]`
with no intro fires `stepA.onEnter` twice in the very first commit, once
from the latched effect (line 106) and once from the index effect (line
112); the claimed count is one. -/
theorem c1_initial_enter_fires_twice :
    propsA.intro = none ∧
    (applyProps (mount { propsA with opn := false }).1 propsA).2 =
      [Ev.stepEnter 0, Ev.stepEnter 0] ∧
    ((applyProps (mount { propsA with opn := false }).1 propsA).2).count
      (Ev.stepEnter 0) = 2 := by
  refine ⟨rfl, by decide, by decide⟩

/-- Claim C7 (confirmed): raising `open` on a closed tour lands on the
intro phase when an intro descriptor is supplied, else on `Step(0)` when
the steps list is non-empty, else on the closed (nothing rendered)
phase. -/
theorem c7_open_initial_phase (p : Props) :
    phase (applyProps (mount { p with opn := false }).1 { p with opn := true }).1 =
      (if p.intro.isSome then Phase.intro
       else if p.steps.isEmpty then Phase.closed
       else Phase.step 0) := by
  have hm : (mount { p with opn := false }).1 = closedCfg p := by
    rw [mount_closed]
  rw [hm]
  cases hin : p.intro with
  | some it =>
    have hoc := open_commit_intro p it hin
    rw [hin] at hoc
    rw [hoc]
    unfold phase introCfg
    simp [hin]
  | none =>
    have hoc := open_commit_nointro p hin
    rw [hin] at hoc
    rw [hoc]
    unfold phase stepCfg
    cases hs : p.steps with
    | nil => simp [hin, hs]
    | cons a l => simp [hin, hs]

/-- Claim C8, counterexample to the claim as stated: for a viewport
narrower than 336 units the horizontal clamp bottoms out at 16, which lies
outside the asserted interval `[16, viewportWidth - 320]` (here
`[16, -220]`). -/
theorem c8_narrow_viewport_escapes_bound :
    tooltipLeft 0 100 = 16 ∧ ¬ tooltipLeft 0 100 ≤ (100 : ℚ) - 320 := by
  constructor
  · norm_num [tooltipLeft]
  · norm_num [tooltipLeft]

/-- Claim C8 (amended): the horizontal position always lies within
`[16, max 16 (viewportWidth - 320)]`, hence within
`[16, viewportWidth - 320]` whenever the viewport is at least 336 units
wide, and the vertical position never exceeds `viewportHeight - 160` for
any input geometry. -/
theorem c8_tooltip_bounds (left bottom vw vh : ℚ) :
    16 ≤ tooltipLeft left vw ∧
    tooltipLeft left vw ≤ max 16 (vw - 320) ∧
    (336 ≤ vw → tooltipLeft left vw ≤ vw - 320) ∧
    tooltipTop bottom vh ≤ vh - 160 := by
  refine ⟨le_min (le_max_right _ _) (le_max_left _ _), min_le_right _ _, ?_, min_le_right _ _⟩
  intro hvw
  have h16 : (16 : ℚ) ≤ vw - 320 := by linarith
  calc tooltipLeft left vw ≤ max 16 (vw - 320) := min_le_right _ _
    _ = vw - 320 := max_eq_right h16

/-- Witness for `c8_tooltip_bounds` at a 1280 by 720 viewport. -/
theorem c8_tooltip_bounds_witness :
    16 ≤ tooltipLeft 0 1280 ∧ tooltipLeft 0 1280 ≤ (1280 : ℚ) - 320 ∧
    tooltipTop 700 720 ≤ (720 : ℚ) - 160 := by
  obtain ⟨a, b, h336, d⟩ := c8_tooltip_bounds 0 700 1280 720
  exact ⟨a, h336 (by norm_num), d⟩

/-- Claim C9, counterexample to the claim as stated: in the intro phase of
an open tour no keydown listener is installed (StepTour's intro modal,
lines 190-221, binds no keys and HighlightTour is not mounted), so Escape
triggers nothing and suppresses nothing. -/
theorem c9_intro_phase_has_no_bindings :
    ReachC (openedCfg propsI) ∧
    (openedCfg propsI).props.opn = true ∧
    phase (openedCfg propsI) = Phase.intro ∧
    stepTourKeydown (openedCfg propsI) Key.escape = ⟨none, false⟩ ∧
    stepTourKeydown (openedCfg propsI) Key.arrowRight = ⟨none, false⟩ := by
    refine ⟨ReachC.reprops _ _ (ReachC.mounted _) (Or.inl (by decide)),
      by decide, by decide, by decide, by decide⟩

/-- Claim C9 (amended): while a step is displayed, Escape triggers close,
ArrowRight triggers advance (a forward action always exists at a step),
and ArrowLeft triggers retreat exactly when the index is positive; each
triggered key suppresses the default browser handling.  In the intro and
outro phases no binding exists. -/
theorem c9_step_keybindings (c : Cfg) (i : Nat) (h : phase c = Phase.step i) :
    stepTourKeydown c Key.escape = ⟨some NavAction.close, true⟩ ∧
    stepTourKeydown c Key.arrowRight = ⟨some NavAction.next, true⟩ ∧
    (0 < c.index → stepTourKeydown c Key.arrowLeft = ⟨some NavAction.prev, true⟩) ∧
    (c.index = 0 → stepTourKeydown c Key.arrowLeft = ⟨none, false⟩) := by
  unfold stepTourKeydown
  rw [h]
  refine ⟨rfl, rfl, ?_, ?_⟩
  · intro hp
    simp [highlightKeydown, hp]
  · intro hp
    simp [highlightKeydown, hp]

/-- Witness for `c9_step_keybindings` at the opened one-step tour. -/
theorem c9_step_keybindings_witness :
    stepTourKeydown (openedCfg propsA) Key.escape = ⟨some NavAction.close, true⟩ ∧
    stepTourKeydown (openedCfg propsA) Key.arrowLeft = ⟨none, false⟩ := by
  have h := c9_step_keybindings (openedCfg propsA) 0 (by decide)
  exact ⟨h.1, h.2.2.2 (by decide)⟩

/-!
Claim C6.  The reset part of the claim holds, but no code path in
`handleClose` (lines 130-136) reads `intro.onClose` or `outro.onClose`:
the descriptor close callbacks declared at lines 27 and 37 are dead fields.
-/

/-- Claim C6, counterexample to the claim as stated: closing from the
active intro phase, whose descriptor supplies an `onClose` callback, fires
only the component-level `onClose` prop and never the descriptor
callback. -/
theorem c6_descriptor_onclose_never_fires :
    phase (openedCfg propsI) = Phase.intro ∧
    (openedCfg propsI).props.intro = some introD ∧
    introD.hasOnClose = true ∧
    Ev.introClose ∉ (fireC handleCloseCore (openedCfg propsI)).2 ∧
    (fireC handleCloseCore (openedCfg propsI)).2 = [Ev.closeCb] := by
  refine ⟨by decide, by decide, rfl, by decide, by decide⟩

/-- Claim C6 (amended): from every settled open configuration — whatever
the prior phase — `handleClose` resets the index to 0, clears both phase
flags and the enter-once latch, lands on the closed phase (under a
conforming caller), and fires exactly the component-level `onClose` prop
when supplied; the intro/outro descriptor `onClose` callbacks are never
invoked. -/
theorem c6_close_resets (c : Cfg) (hS : Stable c) (ho : c.props.opn = true) :
    (fireC handleCloseCore c).1 = closedCfg c.props ∧
    (fireC handleCloseCore c).1.index = 0 ∧
    (fireC handleCloseCore c).1.showIntro = false ∧
    (fireC handleCloseCore c).1.showOutro = false ∧
    (fireC handleCloseCore c).1.introShown = false ∧
    phase (fireC handleCloseCore c).1 = Phase.closed ∧
    (fireC handleCloseCore c).2 =
      (if c.props.hasOnClose = true then [Ev.closeCb] else []) ∧
    Ev.introClose ∉ (fireC handleCloseCore c).2 ∧
    Ev.outroClose ∉ (fireC handleCloseCore c).2 := by
  rw [close_fireC c hS ho]
  refine ⟨rfl, rfl, rfl, rfl, rfl, ?_, rfl, ?_, ?_⟩
  · unfold phase closedCfg
    simp
  · cases c.props.hasOnClose <;> simp
  · cases c.props.hasOnClose <;> simp

/-- Witness for `c6_close_resets`: closing the opened one-step tour. -/
theorem c6_close_resets_witness :
    phase (fireC handleCloseCore (openedCfg propsA)).1 = Phase.closed ∧
    (fireC handleCloseCore (openedCfg propsA)).2 = [Ev.closeCb] := by
  obtain ⟨he, h0, ha, hb, hl, hph, htr, hni, hno⟩ :=
    c6_close_resets (openedCfg propsA) (by decide) (by decide)
  refine ⟨hph, ?_⟩
  rw [htr]
  decide

/-- Claim C2 (confirmed): from a settled configuration at `Step(i)`,
`handleNext` first fires the current step's `onNext` (line 139,
unconditionally, before the next state is evaluated), and then: when
`i + 1 < length(steps)` it moves to `Step(i + 1)` whose `onEnter` fires
(through effect E4); else when an outro exists it fires the outro's
`onEnter` and shows the outro; else it runs the close semantics (under a
conforming caller the tour ends closed, firing the `onClose` prop). -/
theorem c2_advance (c : Cfg) (hS : Stable c) (ho : c.props.opn = true)
    (hsi : c.showIntro = false) (hso : c.showOutro = false)
    (s : TourStep) (hcur : c.props.steps.get? c.index = some s) :
    (c.index + 1 < c.props.steps.length →
      phase (fireC handleNextCore c).1 = Phase.step (c.index + 1) ∧
      (fireC handleNextCore c).2 =
        (if s.hasOnNext = true then [Ev.stepNext c.index] else []) ++
          stepEnterEv c.props.steps (c.index + 1)) ∧
    (¬ c.index + 1 < c.props.steps.length →
      ∀ ot, c.props.outro = some ot →
        phase (fireC handleNextCore c).1 = Phase.outro ∧
        (fireC handleNextCore c).2 =
          (if s.hasOnNext = true then [Ev.stepNext c.index] else []) ++
            (if ot.hasOnEnter = true then [Ev.outroEnter] else [])) ∧
    (¬ c.index + 1 < c.props.steps.length →
      c.props.outro = none →
        (fireC handleNextCore c).1 = closedCfg c.props ∧
        phase (fireC handleNextCore c).1 = Phase.closed ∧
        (fireC handleNextCore c).2 =
          (if s.hasOnNext = true then [Ev.stepNext c.index] else []) ++
            (if c.props.hasOnClose = true then [Ev.closeCb] else [])) := by
  have hmc : c.memoCache = some s := by
    rw [hS.2.2.1, if_pos (⟨ho, hsi⟩ : c.props.opn = true ∧ c.showIntro = false)]
    exact hcur
  have hsr : c.stepsRef = c.props.steps := hS.1
  refine ⟨?_, ?_, ?_⟩
  · intro h1
    have hcore : handleNextCore c =
        ({ c with index := c.index + 1 },
         (if s.hasOnNext = true then [Ev.stepNext c.index] else []), false) := by
      unfold handleNextCore
      rw [hmc, hsr]
      simp [h1]
    unfold fireC
    rw [hcore]
    simp only [Bool.false_eq_true, if_false]
    rw [commit_set_index c hS ho hsi (c.index + 1) (by omega) h1 c.showOutro]
    have ht : c.props.steps[c.index + 1]? = some (c.props.steps[c.index + 1]) :=
      List.getElem?_eq_getElem h1
    constructor
    · unfold phase
      simp [ho, hsi, hso, ht]
    · simp
  · intro h1 ot hot
    have hcore : handleNextCore c =
        ({ c with showOutro := true },
         (if s.hasOnNext = true then [Ev.stepNext c.index] else []) ++
           (if ot.hasOnEnter = true then [Ev.outroEnter] else []), false) := by
      unfold handleNextCore
      rw [hmc, hsr, hot]
      simp [h1]
    unfold fireC
    rw [hcore]
    simp only [Bool.false_eq_true, if_false]
    rw [stable_commit _ (stable_set_outro c hS true)]
    constructor
    · unfold phase
      simp [ho, hsi, hot]
    · simp
  · intro h1 hot
    have hcore : handleNextCore c =
        ({ c with showIntro := false, showOutro := false, index := 0, introShown := false },
         (if s.hasOnNext = true then [Ev.stepNext c.index] else []) ++
           (if c.props.hasOnClose = true then [Ev.closeCb] else []), true) := by
      unfold handleNextCore handleCloseCore
      rw [hmc, hsr, hot]
      simp [h1, hsi]
    unfold fireC
    rw [hcore]
    simp only [eq_self_iff_true, if_true]
    rw [commit_lower_reset c hS ho]
    refine ⟨rfl, ?_, ?_⟩
    · unfold phase closedCfg
      simp
    · simp

/-- Witness for `c2_advance`: advancing the opened two-step tour from
step 0 fires `onNext` of step 0 then `onEnter` of step 1. -/
theorem c2_advance_witness :
    phase (fireC handleNextCore (openedCfg propsAB)).1 = Phase.step 1 ∧
    (fireC handleNextCore (openedCfg propsAB)).2 = [Ev.stepNext 0, Ev.stepEnter 1] := by
  obtain ⟨hb1, hb2, hb3⟩ :=
    c2_advance (openedCfg propsAB) (by decide) (by decide) (by decide) (by decide)
      stepA (by decide)
  obtain ⟨hp, ht⟩ := hb1 (by decide)
  constructor
  · rw [hp]
    decide
  · rw [ht]
    decide

/-- The configuration at step 1 of the opened two-step tour. -/
def cfgStep1 : Cfg := (fireC handleNextCore (openedCfg propsAB)).1

/-- Claim C4, counterexample to the claim as stated: retreating from step 1
to step 0 fires `steps[0].onEnter` — the index effect (lines 110-113) runs
on every index change, backward ones included — while the claim asserts
that no callback fires for the step retreated into. -/
theorem c4_retreat_fires_onenter :
    phase cfgStep1 = Phase.step 1 ∧
    (fireC handlePrevCore cfgStep1).2 = [Ev.stepEnter 0] ∧
    phase (fireC handlePrevCore cfgStep1).1 = Phase.step 0 := by
  refine ⟨by decide, by decide, by decide⟩

/-- Claim C4 (amended): `handlePrev` from a settled `Step(i)` with `i > 0`
moves to `Step(i - 1)` firing exactly that step's `onEnter` (and no
`onNext`); at `Step(0)` it is a strict no-op: the configuration is
unchanged and no event fires. -/
theorem c4_retreat (c : Cfg) (hS : Stable c) (ho : c.props.opn = true)
    (hsi : c.showIntro = false) (hso : c.showOutro = false)
    (hrange : c.index < c.props.steps.length) :
    (0 < c.index →
      phase (fireC handlePrevCore c).1 = Phase.step (c.index - 1) ∧
      (fireC handlePrevCore c).2 = stepEnterEv c.props.steps (c.index - 1)) ∧
    (c.index = 0 → fireC handlePrevCore c = (c, [])) := by
  constructor
  · intro hpos
    have hcore : handlePrevCore c = ({ c with index := c.index - 1 }, [], false) := by
      unfold handlePrevCore
      simp [show ¬ c.index = 0 by omega]
    unfold fireC
    rw [hcore]
    simp only [Bool.false_eq_true, if_false]
    rw [commit_set_index c hS ho hsi (c.index - 1) (by omega) (by omega) c.showOutro]
    have ht : c.props.steps[c.index - 1]? = some (c.props.steps[c.index - 1]) :=
      List.getElem?_eq_getElem (by omega)
    constructor
    · unfold phase
      simp [ho, hsi, hso, ht]
    · simp
  · intro h0
    have hcore : handlePrevCore c = (c, [], false) := by
      unfold handlePrevCore
      simp [h0]
    unfold fireC
    rw [hcore]
    simp only [Bool.false_eq_true, if_false]
    rw [stable_commit c hS]
    simp

/-- Witness for `c4_retreat`: retreat from step 1 of the two-step tour, and
the strict no-op at step 0. -/
theorem c4_retreat_witness :
    phase (fireC handlePrevCore cfgStep1).1 = Phase.step 0 ∧
    fireC handlePrevCore (openedCfg propsAB) = (openedCfg propsAB, []) := by
  obtain ⟨hpos, hzero⟩ :=
    c4_retreat cfgStep1 (by decide) (by decide) (by decide) (by decide) (by decide)
  obtain ⟨hp, htr⟩ := hpos (by decide)
  refine ⟨by rw [hp]; decide, ?_⟩
  exact (c4_retreat (openedCfg propsAB) (by decide) (by decide) (by decide)
    (by decide) (by decide)).2 (by decide)

/-- The configuration in the outro of the opened two-step tour with outro
(the index keeps the value 1 it had at the last step). -/
def cfgOutro : Cfg :=
  (fireC handleNextCore (fireC handleNextCore (openedCfg propsABO)).1).1

/-- Claim C5, counterexample to the claim as stated: retreating from the
outro of a two-step tour lands on `Step(0)`, not on the last step
`Step(1)` — `handleOutroPrev` (line 164) decrements the retained index
instead of selecting `length(steps) - 1`. -/
theorem c5_outro_retreat_skips_last_step :
    phase cfgOutro = Phase.outro ∧
    cfgOutro.index = 1 ∧
    cfgOutro.props.steps.length = 2 ∧
    phase (fireC handleOutroPrevCore cfgOutro).1 = Phase.step 0 ∧
    ¬ phase (fireC handleOutroPrevCore cfgOutro).1 =
        Phase.step (cfgOutro.props.steps.length - 1) := by
  refine ⟨by decide, by decide, by decide, by decide, by decide⟩

/-- Claim C5 (amended): `handleOutroPrev` from a settled outro hides the
outro; with an empty steps list nothing is rendered afterwards (the closed
phase), and otherwise it lands on `Step(i - 1)` where `i` is the index
retained from before the outro (normally `length(steps) - 1`, so the
second-to-last step), firing that step's `onEnter`. -/
theorem c5_outro_retreat (c : Cfg) (hS : Stable c) (ho : c.props.opn = true)
    (hsi : c.showIntro = false) (_hso : c.showOutro = true)
    (_hout : c.props.outro.isSome = true) :
    (c.props.steps = [] →
      fireC handleOutroPrevCore c = ({ c with showOutro := false }, []) ∧
      phase ({ c with showOutro := false } : Cfg) = Phase.closed) ∧
    (0 < c.index → c.index < c.props.steps.length →
      phase (fireC handleOutroPrevCore c).1 = Phase.step (c.index - 1) ∧
      (fireC handleOutroPrevCore c).2 = stepEnterEv c.props.steps (c.index - 1)) := by
  constructor
  · intro hemp
    have hlen : c.stepsRef.length = 0 := by
      rw [hS.1, hemp]
      rfl
    have hcore : handleOutroPrevCore c = ({ c with showOutro := false }, [], false) := by
      unfold handleOutroPrevCore
      simp [hlen]
    have hmc : c.memoCache = none := by
      rw [hS.2.2.1]
      simp [hemp]
    constructor
    · unfold fireC
      rw [hcore]
      simp only [Bool.false_eq_true, if_false]
      rw [stable_commit _ (stable_set_outro c hS false)]
      simp
    · unfold phase
      simp [ho, hsi, hmc]
  · intro hpos hrange
    have hlen : ¬ c.stepsRef.length = 0 := by
      rw [hS.1]
      omega
    have hcore : handleOutroPrevCore c =
        ({ c with showOutro := false, index := c.index - 1 }, [], false) := by
      unfold handleOutroPrevCore
      simp [hlen]
    unfold fireC
    rw [hcore]
    simp only [Bool.false_eq_true, if_false]
    rw [commit_set_index c hS ho hsi (c.index - 1) (by omega) (by omega) false]
    have ht : c.props.steps[c.index - 1]? = some (c.props.steps[c.index - 1]) :=
      List.getElem?_eq_getElem (by omega)
    constructor
    · unfold phase
      simp [ho, hsi, ht]
    · simp

/-- Witness for `c5_outro_retreat`: retreat from the concrete outro. -/
theorem c5_outro_retreat_witness :
    phase (fireC handleOutroPrevCore cfgOutro).1 = Phase.step 0 ∧
    (fireC handleOutroPrevCore cfgOutro).2 = [Ev.stepEnter 0] := by
  obtain ⟨hemp, hstep⟩ :=
    c5_outro_retreat cfgOutro (by decide) (by decide) (by decide) (by decide) (by decide)
  obtain ⟨hp, htr⟩ := hstep (by decide) (by decide)
  refine ⟨?_, ?_⟩
  · rw [hp]
    decide
  · rw [htr]
    decide

/-- The configuration at step 4 of the opened five-step tour. -/
def cfgStep4 : Cfg :=
  (fireC handleNextCore (fireC handleNextCore (fireC handleNextCore
    (fireC handleNextCore (openedCfg props5)).1).1).1).1

/-- Claim C3, counterexample to the claim as stated: shrinking the steps
list from five entries to two while at `Step(4)` does reset the machine to
`Step(0)`, but `steps[0].onEnter` fires through the index effect — the
claim asserts that no `onEnter` fires. -/
theorem c3_shrink_fires_onenter :
    phase cfgStep4 = Phase.step 4 ∧
    (applyProps cfgStep4 { props5 with steps := [stepA, stepA] }).1.index = 0 ∧
    phase (applyProps cfgStep4 { props5 with steps := [stepA, stepA] }).1 =
      Phase.step 0 ∧
    (applyProps cfgStep4 { props5 with steps := [stepA, stepA] }).2 =
      [Ev.stepEnter 0] := by
  refine ⟨by decide, by decide, by decide, by decide⟩

/-- Claim C3 (amended): when the steps prop shrinks to length at most the
current index of a settled `Step(i)`, effect E2 resets the index to 0
without firing any `onNext`; when `i > 0` the index change makes effect E4
fire the new `steps[0].onEnter` (nothing fires when the new list is empty)
and the machine shows `Step(0)` of the new list, or nothing when the list
became empty; when `i = 0` (which forces the new list to be empty) no
event fires at all but the memoised step of the old list keeps rendering:
the phase stays `Step(0)` instead of becoming closed. -/
theorem c3_shrink (c : Cfg) (hS : Stable c) (ho : c.props.opn = true)
    (hsi : c.showIntro = false) (hso : c.showOutro = false)
    (hrange : c.index < c.props.steps.length)
    (l : List TourStep) (hl : l.length ≤ c.index) :
    (0 < c.index →
      (applyProps c { c.props with steps := l }).1.index = 0 ∧
      (applyProps c { c.props with steps := l }).2 = stepEnterEv l 0 ∧
      phase (applyProps c { c.props with steps := l }).1 =
        (if l.isEmpty then Phase.closed else Phase.step 0)) ∧
    (c.index = 0 →
      (applyProps c { c.props with steps := l }).2 = [] ∧
      phase (applyProps c { c.props with steps := l }).1 = Phase.step 0) := by
  obtain ⟨h1, h2, h3, h4, h5, h6⟩ := hS
  have hlen : c.props.steps.length ≠ l.length := by omega
  constructor
  · intro hpos
    have hr1 : renderRound { c with props := { c.props with steps := l } } =
        ({ props := { c.props with steps := l }, index := 0,
           showIntro := c.showIntro, showOutro := c.showOutro,
           introShown := c.introShown, stepsRef := l,
           memoCache := c.memoCache,
           memoDeps := some (c.props.opn, c.showIntro, c.index),
           d2 := some (c.props.opn, c.index, l.length),
           d3 := some (c.props.opn, c.props.introId),
           d4 := some (c.index, c.props.opn, c.showIntro) }, []) := by
      unfold renderRound
      simp [h2, h4, h5, h6, ho, hsi, hl, hlen]
    have hr2 : renderRound
        ({ props := { c.props with steps := l }, index := 0,
           showIntro := c.showIntro, showOutro := c.showOutro,
           introShown := c.introShown, stepsRef := l,
           memoCache := c.memoCache,
           memoDeps := some (c.props.opn, c.showIntro, c.index),
           d2 := some (c.props.opn, c.index, l.length),
           d3 := some (c.props.opn, c.props.introId),
           d4 := some (c.index, c.props.opn, c.showIntro) } : Cfg) =
        ({ props := { c.props with steps := l }, index := 0,
           showIntro := c.showIntro, showOutro := c.showOutro,
           introShown := c.introShown, stepsRef := l,
           memoCache := l.get? 0,
           memoDeps := some (c.props.opn, c.showIntro, 0),
           d2 := some (c.props.opn, 0, l.length),
           d3 := some (c.props.opn, c.props.introId),
           d4 := some (0, c.props.opn, c.showIntro) }, stepEnterEv l 0) := by
      unfold renderRound
      have hne0 : c.index ≠ 0 := by omega
      simp [ho, hsi, hne0]
    unfold applyProps commit
    rw [hr1]
    simp only [hr2]
    refine ⟨by simp, by simp, ?_⟩
    unfold phase
    cases l with
    | nil => simp [ho, hsi, hso]
    | cons a t => simp [ho, hsi, hso]
  · intro h0
    have hle : l = [] := by
      have : l.length = 0 := by omega
      exact List.eq_nil_of_length_eq_zero this
    subst hle
    have hr1 : renderRound { c with props := { c.props with steps := ([] : List TourStep) } } =
        ({ props := { c.props with steps := ([] : List TourStep) }, index := 0,
           showIntro := c.showIntro, showOutro := c.showOutro,
           introShown := c.introShown, stepsRef := [],
           memoCache := c.memoCache,
           memoDeps := some (c.props.opn, c.showIntro, c.index),
           d2 := some (c.props.opn, c.index, 0),
           d3 := some (c.props.opn, c.props.introId),
           d4 := some (c.index, c.props.opn, c.showIntro) }, []) := by
      unfold renderRound
      simp [h2, h4, h5, h6, ho, hsi, h0, hlen]
    have hr2 : renderRound
        ({ props := { c.props with steps := ([] : List TourStep) }, index := 0,
           showIntro := c.showIntro, showOutro := c.showOutro,
           introShown := c.introShown, stepsRef := [],
           memoCache := c.memoCache,
           memoDeps := some (c.props.opn, c.showIntro, c.index),
           d2 := some (c.props.opn, c.index, 0),
           d3 := some (c.props.opn, c.props.introId),
           d4 := some (c.index, c.props.opn, c.showIntro) } : Cfg) =
        (({ props := { c.props with steps := ([] : List TourStep) }, index := 0,
             showIntro := c.showIntro, showOutro := c.showOutro,
             introShown := c.introShown, stepsRef := [],
             memoCache := c.memoCache,
             memoDeps := some (c.props.opn, c.showIntro, c.index),
             d2 := some (c.props.opn, c.index, 0),
             d3 := some (c.props.opn, c.props.introId),
             d4 := some (c.index, c.props.opn, c.showIntro) } : Cfg), ([] : List Ev)) := by
      unfold renderRound
      simp [h0, hsi]
    have hsome : ∃ s, c.memoCache = some s := by
      rw [h3, if_pos (⟨ho, hsi⟩ : c.props.opn = true ∧ c.showIntro = false)]
      exact ⟨_, by rw [List.get?_eq_getElem?]; exact List.getElem?_eq_getElem hrange⟩
    obtain ⟨s, hs⟩ := hsome
    unfold applyProps commit
    rw [hr1]
    simp only [hr2]
    refine ⟨by simp, ?_⟩
    unfold phase
    simp [ho, hsi, hso, hs, h0]

/-- Witness for `c3_shrink`: the five-step tour at step 4 shrunk to two
steps. -/
theorem c3_shrink_witness :
    (applyProps cfgStep4 { cfgStep4.props with steps := [stepA, stepA] }).1.index = 0 ∧
    (applyProps cfgStep4 { cfgStep4.props with steps := [stepA, stepA] }).2 =
      [Ev.stepEnter 0] ∧
    phase (applyProps cfgStep4 { cfgStep4.props with steps := [stepA, stepA] }).1 =
      Phase.step 0 := by
  obtain ⟨hpos, hzero⟩ :=
    c3_shrink cfgStep4 (by decide) (by decide) (by decide) (by decide) (by decide)
      [stepA, stepA] (by decide)
  obtain ⟨hidx, htr, hph⟩ := hpos (by decide)
  refine ⟨hidx, ?_, ?_⟩
  · rw [htr]
    decide
  · rw [hph]
    decide

/-!
Claim C10.  The naive-flags invariant: `showIntro` and `showOutro` are
never simultaneously true.  This fails for the raw handler semantics (a
close that the caller ignores clears the `introShownRef` latch while
`open` stays raised; a later intro-identity change re-runs effect E3 and
raises `showIntro` while `showOutro` is still raised).  Under a conforming
caller that lowers `open` whenever close semantics run, the invariant
holds; we prove it by induction over `ReachC` with a strengthened
invariant.
-/

/-- The flag part of the inductive invariant: each raised flag implies the
latch, the two flags are never both raised, and — whenever the E3 snapshot
agrees with the current props — an open tour implies the latch. -/
def FlagInv (c : Cfg) : Prop :=
  (c.showIntro = true → c.introShown = true) ∧
  (c.showOutro = true → c.introShown = true) ∧
  ¬ (c.showIntro = true ∧ c.showOutro = true) ∧
  (c.d3 = some (c.props.opn, c.props.introId) → c.props.opn = true →
    c.introShown = true)

/-- The memo part of the inductive invariant: a cached `current` step
implies the intro is not showing (the memo of lines 125-128 yields
`undefined` whenever `showIntro` holds). -/
def CacheInv (c : Cfg) : Prop := c.memoCache.isSome = true → c.showIntro = false

/-- The full inductive invariant for configurations between commits. -/
def InvC (c : Cfg) : Prop :=
  FlagInv c ∧ CacheInv c ∧ c.d3 = some (c.props.opn, c.props.introId)

/-- The memo value computed by a round. -/
theorem rr_cache (c : Cfg) :
    (renderRound c).1.memoCache =
      (if c.memoDeps = some (c.props.opn, c.showIntro, c.index) then c.memoCache
       else if c.props.opn = true ∧ c.showIntro = false then c.stepsRef.get? c.index
       else none) := rfl

/-- After a commit the E3 snapshot always agrees with the props. -/
theorem commit_d3 (c : Cfg) :
    (commit c).1.d3 = some ((commit c).1.props.opn, (commit c).1.props.introId) := rfl

/-- The intro flag computed by a round, by cases over effect E3. -/
theorem rr_showIntro (c : Cfg) :
    (renderRound c).1.showIntro =
      (if c.d3 = some (c.props.opn, c.props.introId) then c.showIntro
       else if c.props.opn = false then false
       else if c.introShown = true then c.showIntro
       else
         match c.props.intro with
         | some _ => true
         | none => c.showIntro) := by
  by_cases h1 : c.d3 = some (c.props.opn, c.props.introId)
  · simp [renderRound, h1]
  · by_cases h2 : c.props.opn = false
    · rw [h2] at h1
      simp [renderRound, h1, h2]
    · have ho : c.props.opn = true := by
        revert h2
        cases c.props.opn <;> simp
      rw [ho] at h1
      by_cases h3 : c.introShown = true
      · simp [renderRound, h1, ho, h3]
      · cases hm : c.props.intro <;> simp [renderRound, h1, ho, h3, hm]

/-- The outro flag computed by a round: only the close reset of effect E3
can change it. -/
theorem rr_showOutro (c : Cfg) :
    (renderRound c).1.showOutro =
      (if c.d3 = some (c.props.opn, c.props.introId) then c.showOutro
       else if c.props.opn = false then false
       else c.showOutro) := by
  by_cases h1 : c.d3 = some (c.props.opn, c.props.introId)
  · simp [renderRound, h1]
  · by_cases h2 : c.props.opn = false
    · rw [h2] at h1
      simp [renderRound, h1, h2]
    · have ho : c.props.opn = true := by
        revert h2
        cases c.props.opn <;> simp
      rw [ho] at h1
      by_cases h3 : c.introShown = true
      · simp [renderRound, h1, ho, h3]
      · cases hm : c.props.intro <;> simp [renderRound, h1, ho, h3, hm]

/-- The latch computed by a round: cleared by the close reset, raised by
an open run of effect E3, otherwise unchanged. -/
theorem rr_introShown (c : Cfg) :
    (renderRound c).1.introShown =
      (if c.d3 = some (c.props.opn, c.props.introId) then c.introShown
       else if c.props.opn = false then false
       else true) := by
  by_cases h1 : c.d3 = some (c.props.opn, c.props.introId)
  · simp [renderRound, h1]
  · by_cases h2 : c.props.opn = false
    · rw [h2] at h1
      simp [renderRound, h1, h2]
    · have ho : c.props.opn = true := by
        revert h2
        cases c.props.opn <;> simp
      rw [ho] at h1
      by_cases h3 : c.introShown = true
      · simp [renderRound, h1, ho, h3]
      · cases hm : c.props.intro <;> simp [renderRound, h1, ho, h3, hm]

/-- A round preserves the flag invariant. -/
theorem round_flaginv (c : Cfg) (h : FlagInv c) : FlagInv (renderRound c).1 := by
  obtain ⟨ha, hb, hc, hd⟩ := h
  unfold FlagInv
  rw [rr_showIntro, rr_showOutro, rr_introShown, rr_d3, rr_props]
  by_cases h1 : c.d3 = some (c.props.opn, c.props.introId)
  · simp only [if_pos h1]
    exact ⟨ha, hb, hc, fun _ => hd h1⟩
  · rw [if_neg h1, if_neg h1, if_neg h1]
    by_cases h2 : c.props.opn = false
    · simp [h2]
    · rw [if_neg h2, if_neg h2, if_neg h2]
      by_cases h3 : c.introShown = true
      · simp only [if_pos h3]
        refine ⟨?_, ?_, hc, ?_⟩ <;> simp [h3]
      · simp only [if_neg h3]
        cases hm : c.props.intro with
        | some it =>
          have hso : c.showOutro = false := by
            cases hv : c.showOutro
            · rfl
            · exact absurd (hb hv) h3
          simp [hso]
        | none =>
          refine ⟨?_, ?_, ?_, ?_⟩ <;> simp [hc]

/-- A commit preserves the flag invariant. -/
theorem commit_flaginv (c : Cfg) (h : FlagInv c) : FlagInv (commit c).1 :=
  round_flaginv _ (round_flaginv c h)

/-- A commit establishes the memo invariant from the memo invariant of its
input: the second round recomputes the memo whenever the first round
changed a dependency, and a kept memo pins the intro flag to its compute
value. -/
theorem commit_cacheinv (c : Cfg) (h : CacheInv c) : CacheInv (commit c).1 := by
  intro hsome
  show (commit c).1.showIntro = false
  have hcommit : (commit c).1 = (renderRound (renderRound c).1).1 := rfl
  rw [hcommit] at hsome ⊢
  set c1 := (renderRound c).1 with hc1
  have hsi2 : (renderRound c1).1.showIntro = c1.showIntro :=
    (rr_state_of_d3 c1 (by rw [hc1, rr_d3, rr_props])).1
  rw [hsi2]
  rw [rr_cache c1] at hsome
  by_cases hm : c1.memoDeps = some (c1.props.opn, c1.showIntro, c1.index)
  · rw [if_pos hm] at hsome
    have hmd : c1.memoDeps = some (c.props.opn, c.showIntro, c.index) := by
      rw [hc1]
      exact rr_memoDeps c
    rw [hmd] at hm
    simp only [Option.some.injEq, Prod.mk.injEq] at hm
    obtain ⟨hmo, hms, hmi⟩ := hm
    rw [hc1, rr_cache c] at hsome
    by_cases hm0 : c.memoDeps = some (c.props.opn, c.showIntro, c.index)
    · rw [if_pos hm0] at hsome
      rw [← hms]
      exact h hsome
    · rw [if_neg hm0] at hsome
      by_cases hcond : c.props.opn = true ∧ c.showIntro = false
      · rw [← hms]
        exact hcond.2
      · rw [if_neg hcond] at hsome
        simp at hsome
  · rw [if_neg hm] at hsome
    by_cases hcond : c1.props.opn = true ∧ c1.showIntro = false
    · exact hcond.2
    · rw [if_neg hcond] at hsome
      simp at hsome

/-- A commit establishes the full invariant from the pre-commit parts. -/
theorem commit_invC (c : Cfg) (hf : FlagInv c) (hm : CacheInv c) :
    InvC (commit c).1 :=
  ⟨commit_flaginv c hf, commit_cacheinv c hm, commit_d3 c⟩

/-- A non-closed phase needs the `open` prop raised. -/
theorem phase_opn (c : Cfg) (h : phase c ≠ Phase.closed) : c.props.opn = true := by
  by_contra hno
  have hfalse : c.props.opn = false := by
    revert hno
    cases c.props.opn <;> simp
  unfold phase at h
  rw [if_pos hfalse] at h
  exact h rfl

/-- A step phase needs the `open` prop raised and a memoised step. -/
theorem phase_step_facts (c : Cfg) (i : Nat) (h : phase c = Phase.step i) :
    c.props.opn = true ∧ c.memoCache.isSome = true := by
  have ho : c.props.opn = true := phase_opn c (by rw [h]; simp)
  refine ⟨ho, ?_⟩
  unfold phase at h
  rw [if_neg (by simp [ho])] at h
  by_cases h2 : c.showIntro = true ∧ c.props.intro.isSome = true
  · rw [if_pos h2] at h
    exact absurd h (by simp)
  · rw [if_neg h2] at h
    by_cases h3 : c.showOutro = true ∧ c.props.outro.isSome = true
    · rw [if_pos h3] at h
      exact absurd h (by simp)
    · rw [if_neg h3] at h
      cases hm : c.memoCache with
      | none =>
        rw [hm] at h
        exact absurd h (by simp)
      | some s =>
        rfl

/-- The inductive invariant holds in every configuration reachable under a
conforming caller. -/
theorem reachC_invC (c : Cfg) (h : ReachC c) : InvC c := by
  induction h with
  | mounted p =>
    show InvC (commit (initialCfg p)).1
    apply commit_invC
    · refine ⟨?_, ?_, ?_, ?_⟩ <;> simp [initialCfg]
    · intro hsome
      simp [initialCfg] at hsome
  | reprops c p hc hid ih =>
    obtain ⟨⟨ha, hb, hcc, hd⟩, hcache, hd3⟩ := ih
    show InvC (commit { c with props := p }).1
    apply commit_invC
    · refine ⟨ha, hb, hcc, ?_⟩
      intro h1 hop
      rw [hd3] at h1
      simp only [Option.some.injEq, Prod.mk.injEq] at h1
      exact hd hd3 (by rw [h1.1, hop])
    · exact hcache
  | closeB c hc hph ih =>
    show InvC (commit (lowerOpen { c with
      showIntro := false, showOutro := false, index := 0, introShown := false })).1
    apply commit_invC
    · refine ⟨?_, ?_, ?_, ?_⟩ <;> simp [lowerOpen]
    · intro _
      rfl
  | nextB c i hc hph ih =>
    obtain ⟨⟨ha, hb, hcc, hd⟩, hcache, hd3⟩ := ih
    obtain ⟨ho, hsome⟩ := phase_step_facts c i hph
    have hsi : c.showIntro = false := hcache hsome
    have hlatch : c.introShown = true := hd hd3 ho
    by_cases hnx : c.index + 1 < c.stepsRef.length
    · have heq : (fireC handleNextCore c).1 = (commit { c with index := c.index + 1 }).1 := by
        unfold fireC handleNextCore
        simp [hnx]
      rw [heq]
      exact commit_invC _ ⟨ha, hb, hcc, hd⟩ hcache
    · cases hout : c.props.outro with
      | some ot =>
        have heq : (fireC handleNextCore c).1 = (commit { c with showOutro := true }).1 := by
          unfold fireC handleNextCore
          simp [hnx, hout]
        rw [heq]
        apply commit_invC
        · exact ⟨ha, fun _ => hlatch, by simp [hsi], hd⟩
        · intro _
          exact hsi
      | none =>
        have heq : (fireC handleNextCore c).1 = (commit (lowerOpen { c with
            showIntro := false, showOutro := false, index := 0, introShown := false })).1 := by
          unfold fireC handleNextCore handleCloseCore
          simp [hnx, hout]
        rw [heq]
        apply commit_invC
        · refine ⟨?_, ?_, ?_, ?_⟩ <;> simp [lowerOpen]
        · intro _
          rfl
  | prevB c i hc hph hpos ih =>
    obtain ⟨hf, hcache, hd3⟩ := ih
    by_cases h0 : c.index = 0
    · have heq : (fireC handlePrevCore c).1 = (commit c).1 := by
        unfold fireC handlePrevCore
        simp [h0]
      rw [heq]
      exact commit_invC c hf hcache
    · have heq : (fireC handlePrevCore c).1 = (commit { c with index := c.index - 1 }).1 := by
        unfold fireC handlePrevCore
        simp [h0]
      rw [heq]
      exact commit_invC _ hf hcache
  | introNextB c hc hph ih =>
    obtain ⟨⟨ha, hb, hcc, hd⟩, hcache, hd3⟩ := ih
    by_cases hn : 0 < c.stepsRef.length
    · have heq : (fireC handleIntroNextCore c).1 = (commit { c with showIntro := false }).1 := by
        unfold fireC handleIntroNextCore
        simp [hn]
      rw [heq]
      apply commit_invC
      · exact ⟨by simp, hb, by simp, hd⟩
      · intro _
        rfl
    · have heq : (fireC handleIntroNextCore c).1 = (commit (lowerOpen { c with
          showIntro := false, showOutro := false, index := 0, introShown := false })).1 := by
        unfold fireC handleIntroNextCore handleCloseCore
        simp [hn]
      rw [heq]
      apply commit_invC
      · refine ⟨?_, ?_, ?_, ?_⟩ <;> simp [lowerOpen]
      · intro _
        rfl
  | outroPrevB c hc hph hpos ih =>
    obtain ⟨⟨ha, hb, hcc, hd⟩, hcache, hd3⟩ := ih
    by_cases hn : c.stepsRef.length = 0
    · have heq : (fireC handleOutroPrevCore c).1 = (commit { c with showOutro := false }).1 := by
        unfold fireC handleOutroPrevCore
        simp [hn]
      rw [heq]
      apply commit_invC
      · exact ⟨ha, by simp, by simp, hd⟩
      · intro hs
        exact hcache hs
    · have heq : (fireC handleOutroPrevCore c).1 =
          (commit { c with showOutro := false, index := c.index - 1 }).1 := by
        unfold fireC handleOutroPrevCore
        simp [hn]
      rw [heq]
      apply commit_invC
      · exact ⟨ha, by simp, by simp, hd⟩
      · intro hs
        exact hcache hs
  | outroNextB c hc hph ih =>
    show InvC (commit (lowerOpen { c with
      showIntro := false, showOutro := false, index := 0, introShown := false })).1
    apply commit_invC
    · refine ⟨?_, ?_, ?_, ?_⟩ <;> simp [lowerOpen]
    · intro _
      rfl

/-- The path that defeats the naive-flags invariant when the caller ignores
the close signal: open a tour with intro and outro and no `onClose` prop,
close it from the intro (clearing the latch while `open` stays raised),
advance the re-displayed step 0 into the outro, then re-render with an
intro object of fresh identity, re-running effect E3. -/
def cfgBoth : Cfg :=
  (applyProps (fire handleNextCore (fire handleCloseCore (openedCfg propsBoth)).1).1
    { propsBoth with introId := 1 }).1

/-- Claim C10, counterexample to the claim as stated: a configuration
reachable through the effects and handlers alone (no conforming-caller
assumption) in which the intro flag and the outro flag are both raised. -/
theorem c10_both_flags_reachable :
    Reach cfgBoth ∧ cfgBoth.showIntro = true ∧ cfgBoth.showOutro = true := by
  refine ⟨?_, by decide, by decide⟩
  have r1 : Reach (openedCfg propsBoth) :=
    Reach.reprops _ _ (Reach.mounted { propsBoth with opn := false }) (Or.inl (by decide))
  have r2 : Reach (fire handleCloseCore (openedCfg propsBoth)).1 :=
    Reach.closeB _ r1 (by decide)
  have r3 : Reach (fire handleNextCore (fire handleCloseCore (openedCfg propsBoth)).1).1 :=
    Reach.nextB _ 0 r2 (by decide)
  exact Reach.reprops _ _ r3 (Or.inr (by decide))

/-- Claim C10 (amended): under a conforming caller — one that lowers the
`open` prop whenever the component runs its close semantics — the
intro-visible and outro-visible flags are never both raised in any
reachable configuration. -/
theorem c10_flags_invariant (c : Cfg) (h : ReachC c) :
    ¬ (c.showIntro = true ∧ c.showOutro = true) :=
  (reachC_invC c h).1.2.2.1

/-- Witness for `c10_flags_invariant` at the freshly opened intro. -/
theorem c10_flags_invariant_witness :
    ¬ ((openedCfg propsBoth).showIntro = true ∧ (openedCfg propsBoth).showOutro = true) :=
  c10_flags_invariant _
    (ReachC.reprops _ _ (ReachC.mounted { propsBoth with opn := false }) (Or.inl (by decide)))
